import Mathlib

/-!
Verification of the OpenAPI schema-generator of the fizz repository.

The repository ships only the test files of its `openapi` package; the
generator implementation itself is not part of the source tree given here.
Following the specification document, the definitions below are a shallow
embedding of the generator: runtime type descriptors become the inductive
`GoType`, schema nodes become `SchemaOrRef`, the generation session state
(reference registry plus error sink) becomes `GenState`, and the recursive
schema synthesis becomes `synthType` and `synthFields`.  Where the spec and
the repository's own tests disagree, the behaviour pinned by the tests is
the one modelled; each such place is called out in the doc comment of the
definition.
-/

set_option autoImplicit false
set_option maxHeartbeats 4000000
set_option linter.unusedTactic false
set_option linter.unreachableTactic false
set_option linter.unnecessarySeqFocus false

namespace Fizz

/-- Semantic base kinds of the type classifier: strings, booleans, signed
and unsigned integers of a declared bit width, and floats of a declared
bit width. -/
inductive PrimKind where
  | str
  | boolean
  | i (bits : Nat)
  | u (bits : Nat)
  | f (bits : Nat)
  deriving DecidableEq, Repr

/-- Parsed annotation values.  `int64`/`uint64`/`float64` are the results
of `stringToType` (which widens to 64 bits); `intW`/`uintW`/`floatW` are
the width-typed results of `parseExampleValue`.  Floats are modelled as
exact decimals, mantissa together with the number of fractional digits. -/
inductive ParsedValue where
  | str (s : String)
  | int64 (i : Int)
  | uint64 (n : Nat)
  | float64 (mantissa : Int) (frac : Nat)
  | boolV (b : Bool)
  | intW (bits : Nat) (i : Int)
  | uintW (bits : Nat) (n : Nat)
  | floatW (bits : Nat) (mantissa : Int) (frac : Nat)
  deriving DecidableEq, Repr

/-- Modelled from the spec: the runtime type descriptors the synthesizer
walks (spec section 3, TypeDescriptor); the implementation reading them is
not under src.  `named` refers to a declared struct type by name and is
resolved through a declaration environment; `custom` is a type carrying
the custom example-parsing capability of spec section 4.3, classified as
its underlying base kind. -/
inductive GoType where
  | prim (k : PrimKind)
  | custom (k : PrimKind) (parse : String → Except String ParsedValue)
  | ptr (t : GoType)
  | slice (t : GoType)
  | array (n : Nat) (t : GoType)
  | mapT (key value : GoType)
  | named (n : String)

/-- Iterated pointer constructor: `ptrN n t` is `t` behind `n` pointers. -/
def ptrN : Nat → GoType → GoType
  | 0, t => t
  | n + 1, t => GoType.ptr (ptrN n t)

/-- Decimal digit list to a natural number; `none` when the list is empty
or holds a non-digit character. -/
def digitsToNat? (cs : List Char) : Option Nat :=
  match cs with
  | [] => none
  | _ =>
    cs.foldl (fun acc c =>
      match acc with
      | none => none
      | some n => if c.isDigit then some (n * 10 + (c.toNat - '0'.toNat)) else none)
      (some 0)

/-- Decimal integer literal with an optional leading minus sign. -/
def parseIntText (s : String) : Option Int :=
  match s.toList with
  | '-' :: rest => (digitsToNat? rest).map (fun n => -(n : Int))
  | l => (digitsToNat? l).map Int.ofNat

/-- Decimal natural literal (no sign). -/
def parseUintText (s : String) : Option Nat :=
  digitsToNat? s.toList

/-- Decimal float literal: optional minus sign, integer digits and an
optional fractional part.  The result is the exact decimal as a mantissa
and the count of fractional digits; scientific notation and the special
IEEE values are outside the model's scope. -/
def parseFloatText (s : String) : Option (Int × Nat) :=
  let core : List Char → Option (Nat × Nat) := fun cs =>
    match cs.splitOn '.' with
    | [ds] => (digitsToNat? ds).map (fun n => (n, 0))
    | [ds, fs] =>
      match digitsToNat? ds, digitsToNat? fs with
      | some n, some m => some (n * 10 ^ fs.length + m, fs.length)
      | _, _ => none
    | _ => none
  match s.toList with
  | '-' :: rest => (core rest).map (fun p => (-(p.1 : Int), p.2))
  | l => (core l).map (fun p => ((p.1 : Int), p.2))

/-- Boolean literals accepted as true, as in Go's strconv.ParseBool. -/
def trueLiterals : List String := ["1", "t", "T", "true", "TRUE", "True"]

/-- Boolean literals accepted as false, as in Go's strconv.ParseBool. -/
def falseLiterals : List String := ["0", "f", "F", "false", "FALSE", "False"]

/-- Signed width check: value representable in a two's-complement integer
of the given bit width. -/
def fitsSigned (bits : Nat) (i : Int) : Bool :=
  -((2 : Int) ^ (bits - 1)) ≤ i && i < (2 : Int) ^ (bits - 1)

/-- Unsigned width check. -/
def fitsUnsigned (bits : Nat) (n : Nat) : Bool :=
  n < 2 ^ bits

/-- Conversion of a fully dereferenced type in stringToType. -/
def stringToTypeBase : GoType → String → Except String ParsedValue
  | GoType.prim PrimKind.str, s => Except.ok (ParsedValue.str s)
  | GoType.prim PrimKind.boolean, s =>
    if s ∈ trueLiterals then Except.ok (ParsedValue.boolV true)
    else Except.ok (ParsedValue.boolV (false))
  | GoType.prim (PrimKind.i bits), s =>
    match parseIntText s with
    | some v => if fitsSigned bits v then Except.ok (ParsedValue.int64 v)
                else Except.error "value out of range"
    | none => Except.error "invalid integer syntax"
  | GoType.prim (PrimKind.u bits), s =>
    match parseUintText s with
    | some v => if fitsUnsigned bits v then Except.ok (ParsedValue.uint64 v)
                else Except.error "value out of range"
    | none => Except.error "invalid integer syntax"
  | GoType.prim (PrimKind.f _), s =>
    match parseFloatText s with
    | some p => Except.ok (ParsedValue.float64 p.1 p.2)
    | none => Except.error "invalid float syntax"
  | _, _ => Except.error "unsupported type in conversion"

/-- Modelled from the spec: stringToType (spec section 4.3, default and
enum text conversion); the implementation is not under src.  It
dereferences pointers to arbitrary depth to find the base kind (spec
section 4.3), converts integers and floats width-aware widening to 64
bits, and keeps strings verbatim.  The boolean case follows the
repository's TestStringToType (src/unnamed/part_000), which pins lenient
parsing: a recognized literal maps to its boolean, any other string maps
to false with no error, diverging from the spec's strict-matching words. -/
def stringToType : GoType → String → Except String ParsedValue
  | GoType.ptr t, s => stringToType t s
  | t, s => stringToTypeBase t s

/-- Strict boolean, integer, float and string parsing for example values,
returning width-typed results. -/
def parsePrimExample : PrimKind → String → Except String ParsedValue
  | PrimKind.str, s => Except.ok (ParsedValue.str s)
  | PrimKind.boolean, s =>
    if s ∈ trueLiterals then Except.ok (ParsedValue.boolV true)
    else if s ∈ falseLiterals then Except.ok (ParsedValue.boolV false)
    else Except.error "invalid boolean literal"
  | PrimKind.i bits, s =>
    match parseIntText s with
    | some v => if fitsSigned bits v then Except.ok (ParsedValue.intW bits v)
                else Except.error "value out of range"
    | none => Except.error "invalid integer syntax"
  | PrimKind.u bits, s =>
    match parseUintText s with
    | some v => if fitsUnsigned bits v then Except.ok (ParsedValue.uintW bits v)
                else Except.error "value out of range"
    | none => Except.error "invalid integer syntax"
  | PrimKind.f bits, s =>
    match parseFloatText s with
    | some p => Except.ok (ParsedValue.floatW bits p.1 p.2)
    | none => Except.error "invalid float syntax"

/-- Modelled from the spec: parseExampleValue (spec section 4.3); the
implementation is not under src.  Pointers are dereferenced to arbitrary
depth, the custom example-parsing capability takes precedence over the
built-in parsing, and base kinds parse strictly and width-aware; the
depth-1 to depth-3 behaviour is pinned by TestGenerator_parseExampleValue
and TestNewSchemaFromStructFieldExampleValues in the repository's tests. -/
def parseExampleValue : GoType → String → Except String ParsedValue
  | GoType.ptr t, s => parseExampleValue t s
  | GoType.custom _ p, s => p s
  | GoType.prim k, s => parsePrimExample k s
  | _, _ => Except.error "unsupported type for example value"

/-- Schema nodes (spec section 3, SchemaNode): either a reference by name
into the components registry, or an inline schema with a wire type and
format, a nullable flag, object properties with their required-name list,
an items schema for arrays, an additionalProperties schema for maps, and
the enum, default and example annotation values. -/
inductive SchemaOrRef where
  | ref (name : String)
  | obj (typ format : String) (nullable : Bool)
        (props : List (String × SchemaOrRef))
        (reqd : List String)
        (items : Option SchemaOrRef)
        (addProps : Option SchemaOrRef)
        (enumVals : List ParsedValue)
        (dflt : Option ParsedValue)
        (exampleVal : Option ParsedValue)

/-- Wire type of a base kind, from the canonical table of the classifier. -/
def primTypeStr : PrimKind → String
  | PrimKind.str => "string"
  | PrimKind.boolean => "boolean"
  | PrimKind.i _ => "integer"
  | PrimKind.u _ => "integer"
  | PrimKind.f _ => "number"

/-- Wire format of a base kind, from the canonical table of the classifier. -/
def primFormatStr : PrimKind → String
  | PrimKind.str => ""
  | PrimKind.boolean => ""
  | PrimKind.i bits => if bits = 64 then "int64" else "int32"
  | PrimKind.u bits => if bits = 64 then "int64" else "int32"
  | PrimKind.f bits => if bits = 64 then "double" else "float"

/-- Inline primitive schema node. -/
def primNode (k : PrimKind) (nullable : Bool) : SchemaOrRef :=
  SchemaOrRef.obj (primTypeStr k) (primFormatStr k) nullable [] [] none none [] none none

/-- Wire type of a schema node; references carry none. -/
def objType : SchemaOrRef → Option String
  | SchemaOrRef.ref _ => none
  | SchemaOrRef.obj t _ _ _ _ _ _ _ _ _ => some t

/-- Properties of an inline object schema. -/
def propsOf : SchemaOrRef → List (String × SchemaOrRef)
  | SchemaOrRef.ref _ => []
  | SchemaOrRef.obj _ _ _ ps _ _ _ _ _ _ => ps

/-- Enum list of a schema node. -/
def enumOf : SchemaOrRef → List ParsedValue
  | SchemaOrRef.ref _ => []
  | SchemaOrRef.obj _ _ _ _ _ _ _ es _ _ => es

/-- Items schema of a schema node. -/
def itemsOf : SchemaOrRef → Option SchemaOrRef
  | SchemaOrRef.ref _ => none
  | SchemaOrRef.obj _ _ _ _ _ it _ _ _ _ => it

/-- Enum list of the items schema of a schema node. -/
def itemsEnumOf (s : SchemaOrRef) : List ParsedValue :=
  match itemsOf s with
  | none => []
  | some it => enumOf it

/-- Example value of a schema node. -/
def exampleOf : SchemaOrRef → Option ParsedValue
  | SchemaOrRef.ref _ => none
  | SchemaOrRef.obj _ _ _ _ _ _ _ _ _ ex => ex

/-- Default value of a schema node. -/
def defaultOf : SchemaOrRef → Option ParsedValue
  | SchemaOrRef.ref _ => none
  | SchemaOrRef.obj _ _ _ _ _ _ _ _ d _ => d

/-- Replace the enum list of an inline schema; references are unchanged. -/
def withEnum (s : SchemaOrRef) (es : List ParsedValue) : SchemaOrRef :=
  match s with
  | SchemaOrRef.ref n => SchemaOrRef.ref n
  | SchemaOrRef.obj t f nb ps rq it ap _ d ex => SchemaOrRef.obj t f nb ps rq it ap es d ex

/-- Replace the enum list of the items schema of an inline array schema. -/
def withItemsEnum (s : SchemaOrRef) (es : List ParsedValue) : SchemaOrRef :=
  match s with
  | SchemaOrRef.ref n => SchemaOrRef.ref n
  | SchemaOrRef.obj t f nb ps rq it ap e d ex =>
    match it with
    | none => SchemaOrRef.obj t f nb ps rq it ap e d ex
    | some itS => SchemaOrRef.obj t f nb ps rq (some (withEnum itS es)) ap e d ex

/-- Set the default value of an inline schema; references are unchanged. -/
def withDefault (s : SchemaOrRef) (v : ParsedValue) : SchemaOrRef :=
  match s with
  | SchemaOrRef.ref n => SchemaOrRef.ref n
  | SchemaOrRef.obj t f nb ps rq it ap e _ ex => SchemaOrRef.obj t f nb ps rq it ap e (some v) ex

/-- Set the example value of an inline schema; references are unchanged. -/
def withExample (s : SchemaOrRef) (v : ParsedValue) : SchemaOrRef :=
  match s with
  | SchemaOrRef.ref n => SchemaOrRef.ref n
  | SchemaOrRef.obj t f nb ps rq it ap e d _ => SchemaOrRef.obj t f nb ps rq it ap e d (some v)

/-- Structured errors accumulated in the session's error sink (spec
section 7); `outOfFuel` is the sentinel of the embedding's explicit
recursion budget and never occurs in a terminating synthesis. -/
inductive GenError where
  | unsupportedType (typeName : String)
  | unsupportedMapKey
  | fieldError (fieldName msg : String)
  | outOfFuel
  deriving DecidableEq, Repr

/-- Generation session state: the names already registered in this
synthesis (the cycle guard), the reference registry of named schemas, and
the error sink. -/
structure GenState where
  registered : List String
  defs : List (String × SchemaOrRef)
  errors : List GenError

/-- Append one error to the sink. -/
def GenState.addErr (st : GenState) (e : GenError) : GenState :=
  { st with errors := st.errors ++ [e] }

/-- Append several errors to the sink. -/
def GenState.addErrs (st : GenState) (es : List GenError) : GenState :=
  { st with errors := st.errors ++ es }

/-- Empty session state. -/
def GenState.empty : GenState := ⟨[], [], []⟩

/-- Membership of a key in an association list. -/
def keyMem {α : Type} (w : String) (l : List (String × α)) : Bool :=
  l.any (fun p => p.1 = w)

/-- First value bound to a key in an association list. -/
def alookup {α : Type} (w : String) (l : List (String × α)) : Option α :=
  (l.find? (fun p => p.1 = w)).map (fun p => p.2)

/-- Add a binding only when the key is absent: the first-occurrence-wins
rule of field promotion (spec section 4.2 step 4). -/
def propsAdd {α : Type} (l : List (String × α)) (w : String) (v : α) : List (String × α) :=
  if keyMem w l then l else l ++ [(w, v)]

/-- Number of registry entries under a given name. -/
def defsCount (n : String) (l : List (String × SchemaOrRef)) : Nat :=
  (l.filter (fun p => p.1 = n)).length

/-- Document tag: a name and a description. -/
structure Tag where
  name : String
  description : String
  deriving DecidableEq, Repr

/-- Tag order used by the sort of AddTag: absent (nil) entries sort first,
the rest by name. -/
def tagLe (a b : Option Tag) : Bool :=
  match a, b with
  | none, _ => true
  | some _, none => false
  | some x, some y => decide (x.name ≤ y.name)

/-- The tag order as a relation, for the sort. -/
def tagRel (a b : Option Tag) : Prop := tagLe a b = true

instance : DecidableRel tagRel := fun a b => by unfold tagRel; infer_instance

instance : IsTotal (Option Tag) tagRel := by
  constructor
  intro a b
  cases a <;> cases b <;> simp [tagRel, tagLe]
  exact le_total _ _

instance : IsTrans (Option Tag) tagRel := by
  constructor
  intro a b c hab hbc
  cases a <;> cases b <;> cases c <;> simp [tagRel, tagLe] at * <;> try exact le_trans hab hbc

/-- Stable whole-list sort of the tag list by name, nil entries first:
the model of the sort.SliceStable call of AddTag. -/
def sortTags (ts : List (Option Tag)) : List (Option Tag) :=
  List.insertionSort tagRel ts

/-- True when some present entry carries the given name. -/
def tagNameMem (name : String) (ts : List (Option Tag)) : Bool :=
  ts.any (fun t => match t with | some t => t.name = name | none => false)

/-- Overwrite the description of the first entry with the given name. -/
def updateTagDesc (name desc : String) : List (Option Tag) → List (Option Tag)
  | [] => []
  | none :: ts => none :: updateTagDesc name desc ts
  | some t :: ts =>
    if t.name = name then some { t with description := desc } :: ts
    else some t :: updateTagDesc name desc ts

/-- Modelled from the spec: AddTag of the generator (spec section 6, tag
list name-sorted); the implementation is not under src and the behaviour
is pinned by TestAddTag.  An empty name is a no-op; an existing name has
its description overwritten in place; otherwise the tag is appended and
the whole list re-sorted by name, nil entries first. -/
def addTag (ts : List (Option Tag)) (name desc : String) : List (Option Tag) :=
  if name = "" then ts
  else if tagNameMem name ts then updateTagDesc name desc ts
  else sortTags (ts ++ [some ⟨name, desc⟩])

/-- Key of a tag entry: its name when present. -/
def keyOfTag (t : Option Tag) : Option String := t.map Tag.name

/-- The tag order on keys alone. -/
def keyLe : Option String → Option String → Bool
  | none, _ => true
  | some _, none => false
  | some x, some y => decide (x ≤ y)

/-- The tag list is sorted by name, nil entries first. -/
def tagsSorted (ts : List (Option Tag)) : Prop := List.Sorted tagRel ts

/-- Names of the present tags, in list order. -/
def tagNames (ts : List (Option Tag)) : List String :=
  ts.filterMap (fun t => t.map Tag.name)

/-- At most one tag per name. -/
def tagsUnique (ts : List (Option Tag)) : Prop := (tagNames ts).Nodup

/-- Description of the first tag carrying the given name. -/
def tagDescOf (name : String) : List (Option Tag) → Option String
  | [] => none
  | none :: ts => tagDescOf name ts
  | some t :: ts => if t.name = name then some t.description else tagDescOf name ts


/-- Media-type entry of a response: an optional schema and the mutually
exclusive single example or keyed examples (payloads abstracted as text). -/
structure MediaTypeObj where
  schemaRef : Option SchemaOrRef
  exampleOne : Option String
  exampleMap : List (String × String)

/-- Response entry: a description and per-media-type content. -/
structure ResponseObj where
  description : String
  content : List (String × MediaTypeObj)

/-- Errors of response registration (spec sections 4.4 and 7). -/
inductive RespError where
  | codeAlreadyExists (code : String)
  | malformedStatusCode (code : String)
  | exampleAndExamples
  deriving DecidableEq, Repr

/-- Valid status tokens: a wildcard class 1XX to 5XX, or a number within
the valid HTTP status range 100 to 599. -/
def validStatusCode (code : String) : Bool :=
  (match code.toList with
   | [c, 'X', 'X'] => '1' ≤ c && c ≤ '5'
   | _ => false)
  || (match parseUintText code with
      | some n => 100 ≤ n && n ≤ 599
      | none => false)

/-- Default description for a status code, used when none is supplied. -/
def defaultStatusDescription (code : String) : String :=
  if code = "200" then "OK"
  else if code = "201" then "Created"
  else if code = "204" then "No Content"
  else if code = "400" then "Bad Request"
  else if code = "404" then "Not Found"
  else if code = "429" then "Too Many Requests"
  else ""

/-- Modelled from the spec: setOperationResponse (spec section 4.4); the
implementation is not under src and the behaviour is pinned by
TestSetOperationResponseError.  A code that already has a response entry
is rejected outright, whatever the media type, per the spec's words "one
description/content-type per code per operation, set on first write";
then malformed status tokens are rejected, then supplying both a single
example and a keyed examples map is rejected; otherwise the response is
appended with its description defaulted from the status code. -/
def setOperationResponse (resps : List (String × ResponseObj))
    (code mediaType desc : String) (schema : Option SchemaOrRef)
    (exOne : Option String) (exMap : List (String × String)) :
    Except RespError (List (String × ResponseObj)) :=
  if keyMem code resps then Except.error (RespError.codeAlreadyExists code)
  else if ¬ validStatusCode code then Except.error (RespError.malformedStatusCode code)
  else if exOne.isSome && !exMap.isEmpty then Except.error RespError.exampleAndExamples
  else
    let d := if desc = "" then defaultStatusDescription code else desc
    let content := if mediaType = "" then [] else [(mediaType, ⟨schema, exOne, exMap⟩)]
    Except.ok (resps ++ [(code, ⟨d, content⟩)])

/-- Struct field descriptor (spec section 3, FieldDescriptor): the
declared name, the field's type, whether the field is embedded
(anonymous), whether it is exported, the wire-name override tag, the
validation-required flag and the default, enum and example tags. -/
structure GoField where
  name : String
  typ : GoType
  anonymous : Bool
  exported : Bool
  nameTag : Option String
  required : Bool
  defaultTag : Option String
  enumTag : Option String
  exampleTag : Option String

/-- Dereference exactly one pointer level. -/
def derefOne : GoType → GoType
  | GoType.ptr t => t
  | t => t

/-- Dereference pointers to arbitrary depth. -/
def derefAll : GoType → GoType
  | GoType.ptr t => derefAll t
  | t => t

/-- True for slice types. -/
def isSliceType : GoType → Bool
  | GoType.slice _ => true
  | _ => false

/-- Strip pointers and slices to the base element kind, the type enum
elements are parsed against. -/
def stripPtrSlice : GoType → GoType
  | GoType.ptr t => stripPtrSlice t
  | GoType.slice t => stripPtrSlice t
  | t => t

/-- True when a map key type is supported (string-kinded, spec section
4.2 step 5). -/
def keyIsString : GoType → Bool
  | GoType.prim PrimKind.str => true
  | _ => false

/-- Resolved wire name of a field: the override tag when present, a tag
of exactly "-" suppressing the field, an empty override falling back to
the declared name (pinned by TestStructFieldName). -/
def resolveWireName (f : GoField) : Option String :=
  match f.nameTag with
  | some "-" => none
  | some "" => some f.name
  | some s => some s
  | none => some f.name

/-- Split a comma-separated tag value into its elements, the model of
strings.Split with a comma separator. -/
def splitCommaAux : List Char → List Char → List String
  | [], acc => [String.mk acc.reverse]
  | c :: cs, acc =>
    if c = ',' then String.mk acc.reverse :: splitCommaAux cs []
    else splitCommaAux cs (c :: acc)

/-- Comma-splitting of a tag string. -/
def splitComma (s : String) : List String :=
  splitCommaAux s.toList []

/-- Parse enum elements one by one against the base type, every failing
element producing its own isolated field error (spec section 4.3). -/
def parseEnumPieces (base : GoType) (fname : String) :
    List String → List ParsedValue × List GenError
  | [] => ([], [])
  | p :: ps =>
    let (vs, es) := parseEnumPieces base fname ps
    match stringToType base p with
    | Except.ok v => (v :: vs, es)
    | Except.error m => (vs, GenError.fieldError fname m :: es)

/-- Modelled from the spec: the tag-processing part of
newSchemaFromStructField (spec sections 4.2 step 4 and 4.3); the
implementation is not under src.  Defaults: a default together with the
required flag is a contradiction error, otherwise the default text is
converted with stringToType.  Enums: elements are parsed against the
fully stripped base kind; the values land on the items schema when the
field type is a slice after a single pointer dereference, else on the
field's own enum list — the single (not arbitrary-depth) dereference is
pinned by rows G to I of TestNewSchemaFromEnumField.  Examples are parsed
with parseExampleValue.  Tags on reference nodes are left untouched. -/
def applyFieldTags (f : GoField) (sor : SchemaOrRef) : SchemaOrRef × List GenError :=
  match sor with
  | SchemaOrRef.ref n => (SchemaOrRef.ref n, [])
  | s =>
    let s1e1 :=
      match f.defaultTag with
      | none => (s, [])
      | some d =>
        if d = "" then (s, [])
        else if f.required then
          (s, [GenError.fieldError f.name "field cannot be required and have a default value"])
        else
          match stringToType f.typ d with
          | Except.ok v => (withDefault s v, [])
          | Except.error m => (s, [GenError.fieldError f.name m])
    let s2e2 :=
      match f.enumTag with
      | none => (s1e1.1, [])
      | some e =>
        if e = "" then (s1e1.1, [])
        else
          let pieces := splitComma e
          let ve := parseEnumPieces (stripPtrSlice f.typ) f.name pieces
          if isSliceType (derefOne f.typ) then (withItemsEnum s1e1.1 ve.1, ve.2)
          else (withEnum s1e1.1 ve.1, ve.2)
    let s3e3 :=
      match f.exampleTag with
      | none => (s2e2.1, [])
      | some ex =>
        if ex = "" then (s2e2.1, [])
        else
          match parseExampleValue f.typ ex with
          | Except.ok v => (withExample s2e2.1 v, [])
          | Except.error m => (s2e2.1, [GenError.fieldError f.name m])
    (s3e3.1, s1e1.2 ++ s2e2.2 ++ s3e3.2)

/-- Declaration environment: the named struct types of the program, by
name with their field lists. -/
def Env : Type := List (String × List GoField)

mutual

/-- Modelled from the spec: newSchemaFromType, the recursive schema
synthesis (spec section 4.2); the implementation is not under src.
Pointers mark nullability and recurse; primitives return inline nodes;
slices and arrays synthesize their element into an items schema; maps
require string keys, any other key recording an UnsupportedMapKey error
and yielding nil; a named struct already registered in this session
yields a Reference (the cycle guard of spec section 4.2 step 3), an
unregistered one is registered and its fields synthesized, a Reference
being returned to the caller (spec step 8).  The explicit fuel counts
only environment expansions; exhaustion records the outOfFuel sentinel. -/
def synthType (env : Env) (fuel : Nat) (st : GenState) (t : GoType) (nullable : Bool) :
    Option SchemaOrRef × GenState :=
  match t with
  | GoType.prim k => (some (primNode k nullable), st)
  | GoType.custom k _ => (some (primNode k nullable), st)
  | GoType.ptr t' => synthType env fuel st t' true
  | GoType.slice t' =>
    let r := synthType env fuel st t' false
    (some (SchemaOrRef.obj "array" "" nullable [] [] r.1 none [] none none), r.2)
  | GoType.array _ t' =>
    let r := synthType env fuel st t' false
    (some (SchemaOrRef.obj "array" "" nullable [] [] r.1 none [] none none), r.2)
  | GoType.mapT kT vT =>
    if keyIsString kT then
      let r := synthType env fuel st vT false
      (some (SchemaOrRef.obj "object" "" nullable [] [] none r.1 [] none none), r.2)
    else (none, st.addErr GenError.unsupportedMapKey)
  | GoType.named n =>
    if n ∈ st.registered then (some (SchemaOrRef.ref n), st)
    else
      match alookup n env with
      | none => (none, st.addErr (GenError.unsupportedType n))
      | some fs =>
        match fuel with
        | 0 => (none, st.addErr GenError.outOfFuel)
        | fuel' + 1 =>
          let st1 : GenState := { st with registered := n :: st.registered }
          let r := synthFields env fuel' st1 n fs [] []
          let node := SchemaOrRef.obj "object" "" false r.1 r.2.1 none none [] none none
          (some (SchemaOrRef.ref n), { r.2.2 with defs := r.2.2.defs ++ [(n, node)] })
termination_by (fuel, sizeOf t)
decreasing_by
  all_goals simp_wf
  all_goals first
    | (apply Prod.Lex.left; omega)
    | (apply Prod.Lex.right; simp)
    | (apply Prod.Lex.right; simp; omega)
    | (apply Prod.Lex.right; simp_arith)

/-- Modelled from the spec: the field-promotion pass over a struct's
fields in declaration order (spec section 4.2 step 4); the implementation
is not under src.  Unexported fields are skipped; an embedded field
without a name override is flattened when it dereferences to a declared
struct other than the enclosing type, skipped when it is the enclosing
type itself (recursive embedding), unknown or not a struct; a suppressed
wire name skips the field; a field whose type fails to synthesize is
omitted and its siblings continue; an already present wire name is never
overwritten (first occurrence wins, pinned by the duplicate-field comments
of TestAddOperation). -/
def synthFields (env : Env) (fuel : Nat) (st : GenState) (parent : String)
    (fields : List GoField) (props : List (String × SchemaOrRef)) (reqs : List String) :
    List (String × SchemaOrRef) × List String × GenState :=
  match fields with
  | [] => (props, reqs, st)
  | f :: rest =>
    if ¬ f.exported then synthFields env fuel st parent rest props reqs
    else if f.anonymous ∧ f.nameTag = none then
      match derefAll f.typ with
      | GoType.named m =>
        if m = parent then synthFields env fuel st parent rest props reqs
        else
          match alookup m env with
          | none => synthFields env fuel st parent rest props reqs
          | some mfs =>
            match fuel with
            | 0 => synthFields env 0 (st.addErr GenError.outOfFuel) parent rest props reqs
            | fuel' + 1 =>
              let r := synthFields env fuel' st parent mfs props reqs
              synthFields env (fuel' + 1) r.2.2 parent rest r.1 r.2.1
      | _ => synthFields env fuel st parent rest props reqs
    else
      match resolveWireName f with
      | none => synthFields env fuel st parent rest props reqs
      | some w =>
        match synthType env fuel st f.typ false with
        | (none, st') => synthFields env fuel st' parent rest props reqs
        | (some sor, st') =>
          let se := applyFieldTags f sor
          let props' := propsAdd props w se.1
          let reqs' := if f.required ∧ ¬ keyMem w props then reqs ++ [w] else reqs
          synthFields env fuel (st'.addErrs se.2) parent rest props' reqs'
termination_by (fuel, sizeOf fields)
decreasing_by
  all_goals simp_wf
  all_goals first
    | (apply Prod.Lex.left; omega)
    | (apply Prod.Lex.right; simp)
    | (apply Prod.Lex.right; simp; omega)
    | (apply Prod.Lex.right; cases f; simp; omega)
    | (apply Prod.Lex.right; simp_arith)

end

/-- Per-field schema synthesis followed by tag processing, the model of
newSchemaFromStructField. -/
def fieldSchema (env : Env) (fuel : Nat) (st : GenState) (f : GoField) :
    Option SchemaOrRef × GenState :=
  match synthType env fuel st f.typ false with
  | (none, st') => (none, st')
  | (some sor, st') =>
    let se := applyFieldTags f sor
    (some se.1, st'.addErrs se.2)

/-- Wire name a field would claim in the promotion pass when it adds a
property at all: none for unexported fields and for embedded members
without a name override, else its resolved wire name. -/
def effectiveWire (f : GoField) : Option String :=
  if f.exported = false then none
  else if f.anonymous = true ∧ f.nameTag = none then none
  else resolveWireName f

/-- Synthesis of a named root type in a fresh session over its single
declaration: the scenario of a self-referential struct. -/
def synthRoot (n : String) (fs : List GoField) (fuel : Nat) : Option SchemaOrRef × GenState :=
  synthType [(n, fs)] fuel GenState.empty (GoType.named n) false

/-! Association-list lemmas shared by the claim proofs. -/

theorem keyMem_cons {α : Type} (w : String) (p : String × α) (l : List (String × α)) :
    keyMem w (p :: l) = (decide (p.1 = w) || keyMem w l) := by
  simp [keyMem, List.any_cons]

theorem alookup_append_left {α : Type} (w : String) (l1 l2 : List (String × α))
    (h : keyMem w l1 = true) : alookup w (l1 ++ l2) = alookup w l1 := by
  induction l1 with
  | nil => simp [keyMem] at h
  | cons p l ih =>
    by_cases hp : p.1 = w
    · simp [alookup, List.find?, hp]
    · rw [keyMem_cons] at h
      simp [hp] at h
      simp [alookup, List.find?, hp]
      have := ih h
      simpa [alookup] using this

theorem alookup_append_right {α : Type} (w : String) (l1 l2 : List (String × α))
    (h : keyMem w l1 = false) : alookup w (l1 ++ l2) = alookup w l2 := by
  induction l1 with
  | nil => simp
  | cons p l ih =>
    rw [keyMem_cons] at h
    have hp : ¬ p.1 = w := by
      intro hc
      simp [hc] at h
    simp [hp] at h
    have := ih h
    simp [alookup, List.find?, hp]
    simpa [alookup] using this

theorem keyMem_append {α : Type} (w : String) (l1 l2 : List (String × α)) :
    keyMem w (l1 ++ l2) = (keyMem w l1 || keyMem w l2) := by
  simp [keyMem, List.any_append]

theorem keyMem_propsAdd_ne {α : Type} (w w' : String) (v : α) (l : List (String × α))
    (h : w' ≠ w) : keyMem w (propsAdd l w' v) = keyMem w l := by
  unfold propsAdd
  by_cases hm : keyMem w' l
  · simp [hm]
  · rw [if_neg hm, keyMem_append]
    have hw : keyMem w [(w', v)] = false := by simp [keyMem, h]
    simp [hw]

theorem alookup_propsAdd_of_mem {α : Type} (w w' : String) (v : α) (l : List (String × α))
    (h : keyMem w l = true) : alookup w (propsAdd l w' v) = alookup w l := by
  unfold propsAdd
  by_cases hm : keyMem w' l
  · simp [hm]
  · simp only [hm, if_neg, Bool.false_eq_true, not_false_eq_true, if_false]
    exact alookup_append_left w l [(w', v)] h

/-!
Claim C4.  The claim states that boolean text conversion matches strictly
against true/false literals, any other string yielding an error.  The
repository's own TestStringToType (src/unnamed/part_000, the row mapping
"invalid" to false with no error expected) pins the opposite for
stringToType: unrecognized strings convert to false without error.  Only
parseExampleValue is strict.  The claim is therefore corrected.
-/

/-- Counterexample to C4 as stated: the non-literal string "invalid" is
converted by stringToType to the boolean false with no error, instead of
yielding an error. -/
theorem stringToType_bool_invalid_no_error :
    stringToType (GoType.prim PrimKind.boolean) "invalid"
        = Except.ok (ParsedValue.boolV false)
      ∧ "invalid" ∉ trueLiterals ∧ "invalid" ∉ falseLiterals := by
  refine ⟨rfl, ?_, ?_⟩ <;> decide

/-- C4 (amended): recognized boolean literals convert to their boolean in
both converters; a string that is no recognized literal converts to false
with no error under stringToType (pinned by TestStringToType) while
parseExampleValue rejects it with an error. -/
theorem bool_literal_matching (s : String) :
    (s ∈ trueLiterals →
      stringToType (GoType.prim PrimKind.boolean) s = Except.ok (ParsedValue.boolV true)
      ∧ parseExampleValue (GoType.prim PrimKind.boolean) s = Except.ok (ParsedValue.boolV true))
    ∧ (s ∉ trueLiterals → s ∈ falseLiterals →
      stringToType (GoType.prim PrimKind.boolean) s = Except.ok (ParsedValue.boolV false)
      ∧ parseExampleValue (GoType.prim PrimKind.boolean) s = Except.ok (ParsedValue.boolV false))
    ∧ (s ∉ trueLiterals → s ∉ falseLiterals →
      stringToType (GoType.prim PrimKind.boolean) s = Except.ok (ParsedValue.boolV false)
      ∧ parseExampleValue (GoType.prim PrimKind.boolean) s
          = Except.error "invalid boolean literal") := by
  refine ⟨fun h1 => ?_, fun h1 h2 => ?_, fun h1 h2 => ?_⟩
  · simp [stringToType, stringToTypeBase, parseExampleValue, parsePrimExample, h1]
  · simp [stringToType, stringToTypeBase, parseExampleValue, parsePrimExample, h1, h2]
  · simp [stringToType, stringToTypeBase, parseExampleValue, parsePrimExample, h1, h2]

/-- Witness for C4's amended theorem at the literals "t" and "False" and
at the non-literal "nope". -/
theorem bool_literal_matching_witness :
    stringToType (GoType.prim PrimKind.boolean) "t" = Except.ok (ParsedValue.boolV true)
    ∧ parseExampleValue (GoType.prim PrimKind.boolean) "False"
        = Except.ok (ParsedValue.boolV false)
    ∧ parseExampleValue (GoType.prim PrimKind.boolean) "nope"
        = Except.error "invalid boolean literal" :=
  ⟨((bool_literal_matching "t").1 (by decide)).1,
   (((bool_literal_matching "False").2.1 (by decide)) (by decide)).2,
   (((bool_literal_matching "nope").2.2 (by decide)) (by decide)).2⟩

/-!
Claim C6.  Pointer transparency of example/default value parsing.
-/

/-- C6: for every type and every pointer depth, parsing an example text
value (parseExampleValue) and converting a default or enum text value
(stringToType) behind the pointers return exactly the parse at depth 0;
the statement quantifies over all of GoType, so it covers the supported
base kinds as well as the custom example-parsing capability. -/
theorem parseValue_ptr_transparent (n : Nat) (t : GoType) (s : String) :
    parseExampleValue (ptrN n t) s = parseExampleValue t s
    ∧ stringToType (ptrN n t) s = stringToType t s := by
  induction n with
  | zero => exact ⟨rfl, rfl⟩
  | succ n ih =>
    refine ⟨?_, ?_⟩
    · rw [show ptrN (n + 1) t = GoType.ptr (ptrN n t) from rfl]
      rw [show parseExampleValue (GoType.ptr (ptrN n t)) s
          = parseExampleValue (ptrN n t) s from rfl]
      exact ih.1
    · rw [show ptrN (n + 1) t = GoType.ptr (ptrN n t) from rfl]
      rw [show stringToType (GoType.ptr (ptrN n t)) s
          = stringToType (ptrN n t) s from rfl]
      exact ih.2

/-!
Claim C3.  The claim states that re-registering an existing status code
with a different, not yet populated media type succeeds additively.
TestSetOperationResponseError pins the opposite: registering code "200"
again with media type "application/xml" after "application/json" returns
an error, and the spec's own section 4.4 words agree ("one
description/content-type per code per operation, set on first write").
The claim is corrected: any re-registration of an existing code is
rejected, whatever the media type.
-/

/-- Counterexample to C3 as stated: code "200" already registered with
media type "application/json"; registering "200" again with the distinct
media type "application/xml", whose content slot is not populated, is
rejected rather than succeeding additively. -/
theorem response_other_media_rejected :
    setOperationResponse [("200", ⟨"OK", [("application/json", ⟨none, none, []⟩)]⟩)]
        "200" "application/xml" "" none none []
      = Except.error (RespError.codeAlreadyExists "200") := rfl

/-- C3 (amended): registering a response for a status code that already
has a response entry returns an error regardless of the media type; a
registration for a fresh, well-formed code without the example/examples
conflict succeeds and appends the response entry. -/
theorem setOperationResponse_rule (resps : List (String × ResponseObj))
    (code mt desc : String) (schema : Option SchemaOrRef) (exOne : Option String)
    (exMap : List (String × String)) :
    (keyMem code resps = true →
      setOperationResponse resps code mt desc schema exOne exMap
        = Except.error (RespError.codeAlreadyExists code))
    ∧ (keyMem code resps = false → validStatusCode code = true →
       (exOne.isSome && !exMap.isEmpty) = false →
      setOperationResponse resps code mt desc schema exOne exMap
        = Except.ok (resps ++ [(code,
            ⟨if desc = "" then defaultStatusDescription code else desc,
             if mt = "" then [] else [(mt, ⟨schema, exOne, exMap⟩)]⟩)])) := by
  constructor
  · intro h
    simp [setOperationResponse, h]
  · intro h1 h2 h3
    simp [setOperationResponse, h1, h2, h3]

/-- Witness for C3's amended theorem: the duplicate code "200" is
rejected, and the fresh code "201" with a new media type succeeds. -/
theorem setOperationResponse_rule_witness :
    setOperationResponse [("200", ⟨"OK", []⟩)] "200" "application/xml" "" none none []
        = Except.error (RespError.codeAlreadyExists "200")
    ∧ setOperationResponse [("200", ⟨"OK", []⟩)] "201" "application/xml" "" none none []
        = Except.ok [("200", ⟨"OK", []⟩),
            ("201", ⟨"Created", [("application/xml", ⟨none, none, []⟩)]⟩)] :=
  ⟨(setOperationResponse_rule [("200", ⟨"OK", []⟩)] "200" "application/xml" "" none none []).1
      (by decide),
   by
    have h := (setOperationResponse_rule [("200", ⟨"OK", []⟩)] "201" "application/xml" ""
        none none []).2 (by decide) (by decide) (by decide)
    simpa using h⟩

/-!
Claim C9.  Maps with non-string keys: nil schema plus exactly one
unsupported-map-key error, with siblings continuing.
-/

/-- C9: a map type whose key is not string-kinded synthesizes to none and
appends exactly one UnsupportedMapKey error to the session's sink; and a
struct field of such a map type is omitted from the field-promotion pass,
which continues with the remaining fields on the same accumulators, only
the one error having been recorded. -/
theorem map_unsupported_key (env : Env) (fuel : Nat) (st : GenState) (k v : GoType)
    (nb : Bool) (hk : keyIsString k = false) :
    synthType env fuel st (GoType.mapT k v) nb = (none, st.addErr GenError.unsupportedMapKey)
    ∧ ∀ (parent w : String) (f : GoField) (rest : List GoField)
        (props : List (String × SchemaOrRef)) (reqs : List String),
        f.exported = true → f.anonymous = false → f.typ = GoType.mapT k v →
        resolveWireName f = some w →
        synthFields env fuel st parent (f :: rest) props reqs
          = synthFields env fuel (st.addErr GenError.unsupportedMapKey) parent rest props reqs := by
  have hmap : synthType env fuel st (GoType.mapT k v) nb
      = (none, st.addErr GenError.unsupportedMapKey) := by
    simp [synthType, hk]
  refine ⟨hmap, fun parent w f rest props reqs hex han htyp hw => ?_⟩
  have hmap' : synthType env fuel st f.typ false
      = (none, st.addErr GenError.unsupportedMapKey) := by
    rw [htyp]
    simp [synthType, hk]
  rw [synthFields.eq_def]
  simp only [hex, han, hw, hmap']
  simp

/-- Witness for C9 at a map from 64-bit integers to strings, inside a
struct with one sibling. -/
theorem map_unsupported_key_witness :
    synthType [] 0 GenState.empty
        (GoType.mapT (GoType.prim (PrimKind.i 64)) (GoType.prim PrimKind.str)) false
      = (none, GenState.empty.addErr GenError.unsupportedMapKey)
    ∧ synthFields [] 0 GenState.empty "T"
        [⟨"H", GoType.mapT (GoType.prim (PrimKind.i 64)) (GoType.prim PrimKind.str),
          false, true, none, false, none, none, none⟩,
         ⟨"A", GoType.prim PrimKind.str, false, true, none, false, none, none, none⟩] [] []
      = synthFields [] 0 (GenState.empty.addErr GenError.unsupportedMapKey) "T"
        [⟨"A", GoType.prim PrimKind.str, false, true, none, false, none, none, none⟩] [] [] := by
  have h := map_unsupported_key [] 0 GenState.empty
    (GoType.prim (PrimKind.i 64)) (GoType.prim PrimKind.str) false rfl
  exact ⟨h.1, h.2 "T" "H"
    ⟨"H", GoType.mapT (GoType.prim (PrimKind.i 64)) (GoType.prim PrimKind.str),
      false, true, none, false, none, none, none⟩
    [⟨"A", GoType.prim PrimKind.str, false, true, none, false, none, none, none⟩]
    [] [] rfl rfl rfl rfl⟩

/-!
Claim C7.  A field tagged both validation-required and with a non-empty
default records exactly one FieldError and still yields a schema.
-/

/-- C7: synthesizing a primitive-typed struct field that is both
validation-required and carries a non-empty default value appends exactly
one FieldError (the required/default contradiction) to the session's sink
and still returns a schema rather than none. -/
theorem required_default_contradiction (env : Env) (fuel : Nat) (st : GenState)
    (f : GoField) (k : PrimKind) (d : String)
    (h1 : f.required = true) (h2 : f.defaultTag = some d) (h3 : d ≠ "")
    (h4 : f.enumTag = none) (h5 : f.exampleTag = none) (h6 : f.typ = GoType.prim k) :
    fieldSchema env fuel st f
      = (some (primNode k false),
         st.addErr (GenError.fieldError f.name
           "field cannot be required and have a default value")) := by
  simp [fieldSchema, h6, synthType, applyFieldTags, primNode, h1, h2, h3, h4, h5,
    GenState.addErrs, GenState.addErr]

/-- Witness for C7 at a required string field with default "foobar". -/
theorem required_default_contradiction_witness :
    fieldSchema [] 0 GenState.empty
        ⟨"A", GoType.prim PrimKind.str, false, true, none, true, some "foobar", none, none⟩
      = (some (primNode PrimKind.str false),
         GenState.empty.addErr (GenError.fieldError "A"
           "field cannot be required and have a default value")) :=
  required_default_contradiction [] 0 GenState.empty
    ⟨"A", GoType.prim PrimKind.str, false, true, none, true, some "foobar", none, none⟩
    PrimKind.str "foobar" rfl rfl (by decide) rfl rfl rfl

/-!
Claim C8.  Per-element error isolation in enum parsing.
-/

/-- C8: a primitive-typed field whose enum tag splits into three elements
of which the first and third fail to convert while the second converts to
a value records exactly two FieldErrors, one per failing element, still
returns a schema, and the schema's enum list holds exactly the one
converted value. -/
theorem enum_error_isolation (env : Env) (fuel : Nat) (st : GenState) (f : GoField)
    (k : PrimKind) (e v1 v2 v3 m1 m3 : String) (w : ParsedValue)
    (ht : f.typ = GoType.prim k) (hd : f.defaultTag = none) (hx : f.exampleTag = none)
    (he : f.enumTag = some e) (hne : e ≠ "")
    (hsplit : splitComma e = [v1, v2, v3])
    (h1 : stringToType (GoType.prim k) v1 = Except.error m1)
    (h2 : stringToType (GoType.prim k) v2 = Except.ok w)
    (h3 : stringToType (GoType.prim k) v3 = Except.error m3) :
    fieldSchema env fuel st f
      = (some (withEnum (primNode k false) [w]),
         st.addErrs [GenError.fieldError f.name m1, GenError.fieldError f.name m3])
    ∧ enumOf (withEnum (primNode k false) [w]) = [w] := by
  constructor
  · simp [fieldSchema, ht, synthType, applyFieldTags, primNode, hd, hx, he, hne, hsplit,
      stripPtrSlice, derefOne, isSliceType, parseEnumPieces, h1, h2, h3, withEnum]
  · simp [enumOf, withEnum, primNode]

/-- Witness for C8 at an int64 field with enum tag "a,1,c": the elements
"a" and "c" fail, "1" converts, two errors are recorded and the enum list
is the single converted value. -/
theorem enum_error_isolation_witness :
    fieldSchema [] 0 GenState.empty
        ⟨"C", GoType.prim (PrimKind.i 64), false, true, none, true, none, some "a,1,c", none⟩
      = (some (withEnum (primNode (PrimKind.i 64) false) [ParsedValue.int64 1]),
         GenState.empty.addErrs [GenError.fieldError "C" "invalid integer syntax",
           GenError.fieldError "C" "invalid integer syntax"])
    ∧ enumOf (withEnum (primNode (PrimKind.i 64) false) [ParsedValue.int64 1])
        = [ParsedValue.int64 1] :=
  enum_error_isolation [] 0 GenState.empty
    ⟨"C", GoType.prim (PrimKind.i 64), false, true, none, true, none, some "a,1,c", none⟩
    (PrimKind.i 64) "a,1,c" "a" "1" "c" "invalid integer syntax" "invalid integer syntax"
    (ParsedValue.int64 1) rfl rfl rfl rfl (by decide) (by decide)
    rfl rfl rfl

/-! Helper lemmas on pointer chains, shared by the claim proofs. -/

theorem synthType_ptrN_succ (env : Env) (fuel : Nat) (st : GenState) (t : GoType)
    (k : Nat) : ∀ (nb : Bool),
    synthType env fuel st (ptrN (k + 1) t) nb = synthType env fuel st t true := by
  induction k with
  | zero => intro nb; simp [ptrN, synthType]
  | succ k ih =>
    intro nb
    rw [show ptrN (k + 1 + 1) t = GoType.ptr (ptrN (k + 1) t) from rfl]
    rw [show synthType env fuel st (GoType.ptr (ptrN (k + 1) t)) nb
        = synthType env fuel st (ptrN (k + 1) t) true by simp [synthType]]
    exact ih true

theorem stripPtrSlice_ptrN (k : Nat) (t : GoType) :
    stripPtrSlice (ptrN k t) = stripPtrSlice t := by
  induction k with
  | zero => rfl
  | succ k ih => simpa [ptrN, stripPtrSlice] using ih

theorem derefOne_ptrN_two (k : Nat) (t : GoType) :
    derefOne (ptrN (k + 2) t) = GoType.ptr (ptrN k t) := by
  rfl

/-!
Claim C5.  Enum placement for slice-valued fields.  The claim states that
sliceness is judged after dereferencing pointers to arbitrary depth.
Rows G to I of TestNewSchemaFromEnumField pin a single pointer
dereference instead: a field of type `**[]string` (row H) receives its
enum values on the field's own enum list, not on the items list, and row
I's `**[]float64` values are nevertheless parsed against the element base
kind.  The claim is corrected accordingly.
-/

/-- Counterexample to C5 as stated: the field H of type **[]string (a
slice after full pointer dereferencing) with enum tag "p,q,r" gets the
parsed values on its own enum list while the items enum stays empty — the
reverse of the claimed placement. -/
theorem enum_double_ptr_slice_counterexample :
    enumOf (((fieldSchema [] 0 GenState.empty
        ⟨"H", ptrN 2 (GoType.slice (GoType.prim PrimKind.str)), false, true, none,
          true, none, some "p,q,r", none⟩).1).getD (SchemaOrRef.ref ""))
      = [ParsedValue.str "p", ParsedValue.str "q", ParsedValue.str "r"]
    ∧ itemsEnumOf (((fieldSchema [] 0 GenState.empty
        ⟨"H", ptrN 2 (GoType.slice (GoType.prim PrimKind.str)), false, true, none,
          true, none, some "p,q,r", none⟩).1).getD (SchemaOrRef.ref "")) = [] := by
  constructor <;>
    simp [fieldSchema, synthType, applyFieldTags, ptrN, primNode, splitComma, splitCommaAux,
      parseEnumPieces, stringToType, stringToTypeBase, stripPtrSlice, derefOne, isSliceType,
      withEnum, withItemsEnum, enumOf, itemsEnumOf, itemsOf]

/-- C5 (amended): enum values are always parsed element by element
against the fully stripped base kind, but the placement is decided after
a single pointer dereference: a slice behind at most one pointer places
the values on the items schema's enum list with the field's own list
empty, a slice behind two or more pointers and any non-slice field place
them on the field's own enum list with the items list empty; in every
case a schema is returned and the per-element errors are appended. -/
theorem enum_placement (env : Env) (fuel : Nat) (st : GenState) (f : GoField)
    (b : PrimKind) (e : String) (k : Nat)
    (hd : f.defaultTag = none) (hx : f.exampleTag = none)
    (he : f.enumTag = some e) (hne : e ≠ "") :
    (f.typ = ptrN k (GoType.slice (GoType.prim b)) → k ≤ 1 →
      (fieldSchema env fuel st f).2
          = st.addErrs (parseEnumPieces (GoType.prim b) f.name (splitComma e)).2
        ∧ ((fieldSchema env fuel st f).1).isSome = true
        ∧ itemsEnumOf (((fieldSchema env fuel st f).1).getD (SchemaOrRef.ref ""))
            = (parseEnumPieces (GoType.prim b) f.name (splitComma e)).1
        ∧ enumOf (((fieldSchema env fuel st f).1).getD (SchemaOrRef.ref "")) = [])
    ∧ (f.typ = ptrN k (GoType.slice (GoType.prim b)) → 2 ≤ k →
      (fieldSchema env fuel st f).2
          = st.addErrs (parseEnumPieces (GoType.prim b) f.name (splitComma e)).2
        ∧ ((fieldSchema env fuel st f).1).isSome = true
        ∧ enumOf (((fieldSchema env fuel st f).1).getD (SchemaOrRef.ref ""))
            = (parseEnumPieces (GoType.prim b) f.name (splitComma e)).1
        ∧ itemsEnumOf (((fieldSchema env fuel st f).1).getD (SchemaOrRef.ref "")) = [])
    ∧ (f.typ = ptrN k (GoType.prim b) →
      (fieldSchema env fuel st f).2
          = st.addErrs (parseEnumPieces (GoType.prim b) f.name (splitComma e)).2
        ∧ ((fieldSchema env fuel st f).1).isSome = true
        ∧ enumOf (((fieldSchema env fuel st f).1).getD (SchemaOrRef.ref ""))
            = (parseEnumPieces (GoType.prim b) f.name (splitComma e)).1
        ∧ itemsEnumOf (((fieldSchema env fuel st f).1).getD (SchemaOrRef.ref "")) = []) := by
  refine ⟨fun ht hk => ?_, fun ht hk => ?_, fun ht => ?_⟩
  · -- slice behind at most one pointer
    interval_cases k
    · simp only [ptrN] at ht
      refine ⟨?_, ?_, ?_, ?_⟩ <;>
        simp [fieldSchema, ht, synthType, applyFieldTags, hd, hx, he, hne,
          derefOne, isSliceType, withItemsEnum, itemsEnumOf, itemsOf, enumOf,
          withEnum, primNode, stripPtrSlice]
    · simp only [ptrN] at ht
      refine ⟨?_, ?_, ?_, ?_⟩ <;>
        simp [fieldSchema, ht, synthType, applyFieldTags, hd, hx, he, hne,
          derefOne, isSliceType, withItemsEnum, itemsEnumOf, itemsOf, enumOf,
          withEnum, primNode, stripPtrSlice]
  · -- slice behind two or more pointers
    obtain ⟨kk, rfl⟩ : ∃ kk, k = kk + 2 := ⟨k - 2, by omega⟩
    have hsyn : synthType env fuel st (ptrN (kk + 2) (GoType.slice (GoType.prim b))) false
        = synthType env fuel st (GoType.slice (GoType.prim b)) true :=
      synthType_ptrN_succ env fuel st (GoType.slice (GoType.prim b)) (kk + 1) false
    refine ⟨?_, ?_, ?_, ?_⟩ <;>
      simp [fieldSchema, hsyn, synthType, applyFieldTags, hd, hx, he, hne, ht,
        stripPtrSlice_ptrN, derefOne_ptrN_two, isSliceType, withItemsEnum,
        itemsEnumOf, itemsOf, enumOf, withEnum, primNode, stripPtrSlice]
  · -- primitive behind any number of pointers
    match k, ht with
    | 0, ht =>
      simp only [ptrN] at ht
      refine ⟨?_, ?_, ?_, ?_⟩ <;>
        simp [fieldSchema, ht, synthType, applyFieldTags, hd, hx, he, hne,
          derefOne, isSliceType, withEnum, enumOf, itemsEnumOf, itemsOf, primNode,
          stripPtrSlice]
    | k + 1, ht =>
      have hsyn : synthType env fuel st (ptrN (k + 1) (GoType.prim b)) false
          = synthType env fuel st (GoType.prim b) true :=
        synthType_ptrN_succ env fuel st (GoType.prim b) k false
      have hder : isSliceType (derefOne (ptrN (k + 1) (GoType.prim b))) = false := by
        match k with
        | 0 => rfl
        | k + 1 => rw [derefOne_ptrN_two]; rfl
      refine ⟨?_, ?_, ?_, ?_⟩ <;>
        simp [fieldSchema, hsyn, synthType, applyFieldTags, hd, hx, he, hne, ht,
          hder, stripPtrSlice_ptrN, withEnum, enumOf, itemsEnumOf, itemsOf, primNode,
          stripPtrSlice]

/-- Witness for C5's amended theorem at a plain []string field with enum
tag "g,h,i" (values on the items enum) and at an int64 field behind one
pointer with enum tag "4,5,6" (values on the field's own enum). -/
theorem enum_placement_witness :
    itemsEnumOf (((fieldSchema [] 0 GenState.empty
        ⟨"E", GoType.slice (GoType.prim PrimKind.str), false, true, none, true, none,
          some "g,h,i", none⟩).1).getD (SchemaOrRef.ref ""))
      = (parseEnumPieces (GoType.prim PrimKind.str) "E" (splitComma "g,h,i")).1
    ∧ enumOf (((fieldSchema [] 0 GenState.empty
        ⟨"D", GoType.ptr (GoType.prim (PrimKind.i 64)), false, true, none, true, none,
          some "4,5,6", none⟩).1).getD (SchemaOrRef.ref ""))
      = (parseEnumPieces (GoType.prim (PrimKind.i 64)) "D" (splitComma "4,5,6")).1 :=
  ⟨((enum_placement [] 0 GenState.empty
      ⟨"E", GoType.slice (GoType.prim PrimKind.str), false, true, none, true, none,
        some "g,h,i", none⟩ PrimKind.str "g,h,i" 0 rfl rfl rfl (by decide)).1
      rfl (by omega)).2.2.1,
   ((enum_placement [] 0 GenState.empty
      ⟨"D", GoType.ptr (GoType.prim (PrimKind.i 64)), false, true, none, true, none,
        some "4,5,6", none⟩ (PrimKind.i 64) "4,5,6" 1 rfl rfl rfl (by decide)).2.2
      rfl).2.2.1⟩

/-!
Claim C2.  Field shadowing.  The claim states that a directly-declared
field always beats a promoted field with the same wire name, regardless
of declaration order.  The repository states the opposite at
generator_test.go line 482: the direct field F of struct In, sharing wire
name "f" with the field promoted from the earlier embedded member
InEmbed, carries the comment "ignored, duplicate of F in InEmbed" — the
first occurrence in declaration order wins, which here is the promoted
field.  The claim is corrected to first-occurrence-wins.
-/

/-- Properties accumulated by the field-promotion pass only ever grow by
appending: whatever a later field or promotion produces is appended after
the existing bindings, never written over them. -/
theorem synthFields_props_extend :
    ∀ (fuel : Nat) (fields : List GoField) (env : Env) (st : GenState) (parent : String)
      (props : List (String × SchemaOrRef)) (reqs : List String),
      ∃ ext, (synthFields env fuel st parent fields props reqs).1 = props ++ ext := by
  intro fuel
  induction fuel using Nat.strong_induction_on with
  | _ fuel ihf =>
    intro fields
    induction fields with
    | nil =>
      intro env st parent props reqs
      exact ⟨[], by simp [synthFields]⟩
    | cons f rest ihl =>
      intro env st parent props reqs
      rw [synthFields.eq_def]
      dsimp only
      split
      · exact ihl env st parent props reqs
      · split
        · split
          · split
            · exact ihl env st parent props reqs
            · split
              · exact ihl env st parent props reqs
              · rename_i mfs hlook
                split
                · exact ihl env _ parent props reqs
                · rename_i a b
                  obtain ⟨e1, h1⟩ := ihf b (by omega) mfs env st parent props reqs
                  obtain ⟨e2, h2⟩ :=
                    ihl env (synthFields env b st parent mfs props reqs).2.2 parent
                      (synthFields env b st parent mfs props reqs).1
                      (synthFields env b st parent mfs props reqs).2.1
                  refine ⟨e1 ++ e2, ?_⟩
                  rw [h2, h1, List.append_assoc]
          · exact ihl env st parent props reqs
        · split
          · exact ihl env st parent props reqs
          · rename_i w hw
            split
            · rename_i st1 hsyn
              exact ihl env st1 parent props reqs
            · rename_i sor st1 hsyn
              obtain ⟨e2, h2⟩ :=
                ihl env (st1.addErrs (applyFieldTags f sor).2) parent
                  (propsAdd props w (applyFieldTags f sor).1)
                  (if f.required = true ∧ ¬keyMem w props = true then reqs ++ [w] else reqs)
              by_cases hk : keyMem w props = true
              · refine ⟨e2, ?_⟩
                rw [h2]
                simp [propsAdd, hk]
              · refine ⟨(w, (applyFieldTags f sor).1) :: e2, ?_⟩
                rw [h2]
                simp [propsAdd, hk]

/-- Counterexample to C2 as stated: struct P embeds E before declaring
its own field F, both resolving to wire name "f" (E's F an integer, P's
direct F a string).  The schema kept under "f" in the registered P object
is the promoted integer field, not the directly-declared string field the
claim requires. -/
theorem shadowing_direct_field_loses :
    (alookup "P" (synthType
        [("P", [⟨"E", GoType.ptr (GoType.named "E"), true, true, none, false, none, none, none⟩,
                ⟨"F", GoType.prim PrimKind.str, false, true, some "f", false, none, none, none⟩]),
         ("E", [⟨"F", GoType.prim (PrimKind.i 64), false, true, some "f", false, none, none, none⟩])]
        3 GenState.empty (GoType.named "P") false).2.defs).map
      (fun o => (alookup "f" (propsOf o)).map objType)
      = some (some (some "integer"))
    ∧ ("integer" : String) ≠ "string" := by
  constructor
  · simp [synthType, synthFields, GenState.empty, alookup, resolveWireName, derefAll,
      applyFieldTags, propsAdd, keyMem, primNode, primTypeStr, primFormatStr, propsOf,
      objType, GenState.addErrs]
  · decide

/-- C2 (amended): when a directly-declared field and a promoted field
resolve to the same wire name, the first occurrence in declaration-order
flattening wins, whichever kind it is: once a wire name is bound in the
accumulated properties, processing any further fields — direct or
promoted — leaves its schema unchanged.  A directly-declared field
prevails exactly when it precedes the embedded member. -/
theorem first_occurrence_wins (env : Env) (fuel : Nat) (st : GenState) (parent : String)
    (fields : List GoField) (props : List (String × SchemaOrRef)) (reqs : List String)
    (w : String) (h : keyMem w props = true) :
    alookup w (synthFields env fuel st parent fields props reqs).1 = alookup w props := by
  obtain ⟨ext, hext⟩ := synthFields_props_extend fuel fields env st parent props reqs
  rw [hext, alookup_append_left w props ext h]

/-- Witness for C2's amended theorem: with "f" already bound to the
promoted integer schema, processing the direct string field F leaves the
binding unchanged. -/
theorem first_occurrence_wins_witness :
    alookup "f" (synthFields [] 1 GenState.empty "P"
        [⟨"F", GoType.prim PrimKind.str, false, true, some "f", false, none, none, none⟩]
        [("f", primNode (PrimKind.i 64) false)] []).1
      = alookup "f" [("f", primNode (PrimKind.i 64) false)] :=
  first_occurrence_wins [] 1 GenState.empty "P"
    [⟨"F", GoType.prim PrimKind.str, false, true, some "f", false, none, none, none⟩]
    [("f", primNode (PrimKind.i 64) false)] [] "f" (by simp [keyMem])

/-!
Claim C10.  Invariants of AddTag: at most one tag per name, list sorted
by name (nil entries first), empty names a no-op, existing names updated
in place.
-/

theorem tagLe_eq_keyLe (a b : Option Tag) : tagLe a b = keyLe (keyOfTag a) (keyOfTag b) := by
  cases a <;> cases b <;> rfl

theorem updateTagDesc_keys (n d : String) (ts : List (Option Tag)) :
    (updateTagDesc n d ts).map keyOfTag = ts.map keyOfTag := by
  induction ts with
  | nil => rfl
  | cons t ts ih =>
    match t with
    | none => simpa [updateTagDesc, keyOfTag] using ih
    | some t =>
      by_cases h : t.name = n
      · simp [updateTagDesc, h, keyOfTag]
      · simpa [updateTagDesc, h, keyOfTag] using ih

theorem updateTagDesc_names (n d : String) (ts : List (Option Tag)) :
    tagNames (updateTagDesc n d ts) = tagNames ts := by
  induction ts with
  | nil => rfl
  | cons t ts ih =>
    match t with
    | none => simpa [updateTagDesc, tagNames] using ih
    | some t =>
      by_cases h : t.name = n
      · simp [updateTagDesc, h, tagNames]
      · simpa [updateTagDesc, h, tagNames] using ih

theorem updateTagDesc_length (n d : String) (ts : List (Option Tag)) :
    (updateTagDesc n d ts).length = ts.length := by
  induction ts with
  | nil => rfl
  | cons t ts ih =>
    match t with
    | none => simpa [updateTagDesc] using ih
    | some t =>
      by_cases h : t.name = n
      · simp [updateTagDesc, h]
      · simpa [updateTagDesc, h] using ih

theorem updateTagDesc_found (n d : String) (ts : List (Option Tag))
    (h : tagNameMem n ts = true) : tagDescOf n (updateTagDesc n d ts) = some d := by
  induction ts with
  | nil => simp [tagNameMem] at h
  | cons t ts ih =>
    match t with
    | none =>
      simp [tagNameMem] at h
      simp [updateTagDesc, tagDescOf]
      exact ih (by simpa [tagNameMem] using h)
    | some t =>
      by_cases hn : t.name = n
      · simp [updateTagDesc, hn, tagDescOf]
      · simp [tagNameMem, List.any_cons, hn] at h
        simp [updateTagDesc, hn, tagDescOf]
        exact ih (by simpa [tagNameMem] using h)

theorem tagsSorted_of_keys_eq (ts us : List (Option Tag))
    (h : us.map keyOfTag = ts.map keyOfTag) (hs : tagsSorted ts) : tagsSorted us := by
  have h1 : List.Pairwise (fun x y => keyLe x y = true) (ts.map keyOfTag) := by
    rw [List.pairwise_map]
    refine hs.imp (fun hab => ?_)
    rw [← tagLe_eq_keyLe]
    exact hab
  rw [← h, List.pairwise_map] at h1
  refine h1.imp (fun hab => ?_)
  show tagLe _ _ = true
  rw [tagLe_eq_keyLe]
  exact hab

theorem tagNameMem_cons_some (n : String) (t : Tag) (ts : List (Option Tag)) :
    tagNameMem n (some t :: ts) = (decide (t.name = n) || tagNameMem n ts) := by
  simp [tagNameMem, List.any_cons]

theorem tagNameMem_cons_none (n : String) (ts : List (Option Tag)) :
    tagNameMem n (none :: ts) = tagNameMem n ts := by
  simp [tagNameMem, List.any_cons]

theorem tagNames_cons_some (t : Tag) (ts : List (Option Tag)) :
    tagNames (some t :: ts) = t.name :: tagNames ts := rfl

theorem tagNames_cons_none (ts : List (Option Tag)) :
    tagNames (none :: ts) = tagNames ts := rfl

theorem tagNameMem_iff (n : String) (ts : List (Option Tag)) :
    tagNameMem n ts = true ↔ n ∈ tagNames ts := by
  induction ts with
  | nil => simp [tagNameMem, tagNames]
  | cons t ts ih =>
    match t with
    | none => rw [tagNameMem_cons_none, tagNames_cons_none]; exact ih
    | some t =>
      rw [tagNameMem_cons_some, tagNames_cons_some]
      by_cases h : t.name = n
      · simp [h]
      · have hred : (decide (t.name = n) || tagNameMem n ts) = tagNameMem n ts := by
          simp [h]
        rw [hred, ih, List.mem_cons]
        constructor
        · exact fun hm => Or.inr hm
        · rintro (hEq | hm)
          · exact absurd hEq.symm h
          · exact hm

theorem tagNames_append_one (ts : List (Option Tag)) (n d : String) :
    tagNames (ts ++ [some ⟨n, d⟩]) = tagNames ts ++ [n] := by
  simp [tagNames]

/-- C10: starting from a tag list with at most one tag per name, sorted
by name with nil entries first, every AddTag call preserves both
invariants; AddTag with an empty name leaves the list unchanged; AddTag
with a name already present keeps the name list and length (no appended
duplicate) and overwrites that tag's description in place; AddTag with a
fresh name produces a list whose names are exactly the old ones plus the
new name. -/
theorem addTag_invariants (ts : List (Option Tag)) (name desc : String)
    (hs : tagsSorted ts) (hu : tagsUnique ts) :
    tagsSorted (addTag ts name desc)
    ∧ tagsUnique (addTag ts name desc)
    ∧ (name = "" → addTag ts name desc = ts)
    ∧ (name ≠ "" → tagNameMem name ts = true →
        tagNames (addTag ts name desc) = tagNames ts
        ∧ (addTag ts name desc).length = ts.length
        ∧ tagDescOf name (addTag ts name desc) = some desc)
    ∧ (name ≠ "" → tagNameMem name ts = false →
        List.Perm (tagNames (addTag ts name desc)) (tagNames ts ++ [name])) := by
  by_cases h0 : name = ""
  · simp [addTag, h0, hs, hu]
  · by_cases hm : tagNameMem name ts = true
    · have heq : addTag ts name desc = updateTagDesc name desc ts := by
        simp [addTag, h0, hm]
      rw [heq]
      refine ⟨?_, ?_, fun hc => absurd hc h0, fun _ _ => ?_, fun _ hc => ?_⟩
      · exact tagsSorted_of_keys_eq ts _ (updateTagDesc_keys name desc ts) hs
      · unfold tagsUnique
        rw [updateTagDesc_names]
        exact hu
      · exact ⟨updateTagDesc_names name desc ts, updateTagDesc_length name desc ts,
          updateTagDesc_found name desc ts hm⟩
      · rw [hm] at hc
        exact absurd hc (by simp)
    · have heq : addTag ts name desc = sortTags (ts ++ [some ⟨name, desc⟩]) := by
        simp [addTag, h0, hm]
      have hperm : List.Perm (sortTags (ts ++ [some ⟨name, desc⟩])) (ts ++ [some ⟨name, desc⟩]) :=
        List.perm_insertionSort tagRel _
      have hnamesPerm : List.Perm (tagNames (addTag ts name desc)) (tagNames ts ++ [name]) := by
        rw [heq, ← tagNames_append_one ts name desc]
        unfold tagNames
        exact hperm.filterMap _
      refine ⟨?_, ?_, fun hc => absurd hc h0, fun _ hc => ?_, fun _ _ => hnamesPerm⟩
      · rw [heq]
        exact List.sorted_insertionSort tagRel _
      · unfold tagsUnique
        refine hnamesPerm.nodup_iff.mpr ?_
        have hnotin : name ∉ tagNames ts := by
          intro hin
          rw [← tagNameMem_iff] at hin
          simp [hin] at hm
        have hu2 : (tagNames ts).Nodup := hu
        simp [List.nodup_append, hu2, hnotin]
      · simp [hm] at hc

/-- Witness for C10 at the TestAddTag scenario: the list holding a nil
entry and the tag Test stays sorted when A is added, is unchanged by an
empty name, and updating Test overwrites its description. -/
theorem addTag_invariants_witness :
    tagsSorted (addTag [none, some ⟨"Test", "Test routes"⟩] "A" "")
    ∧ (addTag [none, some ⟨"Test", "Test routes"⟩] "" "x" = [none, some ⟨"Test", "Test routes"⟩])
    ∧ tagDescOf "Test" (addTag [none, some ⟨"Test", "Test routes"⟩] "Test" "Routes test")
        = some "Routes test" := by
  have hso : tagsSorted [none, some ⟨"Test", "Test routes"⟩] := by
    unfold tagsSorted tagRel
    decide
  have hun : tagsUnique [none, some ⟨"Test", "Test routes"⟩] := by
    unfold tagsUnique tagNames
    decide
  have h1 := addTag_invariants [none, some ⟨"Test", "Test routes"⟩] "A" "" hso hun
  have h2 := addTag_invariants [none, some ⟨"Test", "Test routes"⟩] "" "x" hso hun
  have h3 := addTag_invariants [none, some ⟨"Test", "Test routes"⟩] "Test" "Routes test" hso hun
  exact ⟨h1.1, h2.2.2.1 rfl, (h3.2.2.2.1 (by decide) (by decide)).2.2⟩

/-!
Claim C1.  Self-referential struct synthesis: termination, a single
registration, and References at repeat encounters.
-/

theorem synthType_ptrN_named_registered (env : Env) (fuel : Nat) (st : GenState)
    (n : String) (k : Nat) : ∀ (nb : Bool), n ∈ st.registered →
    synthType env fuel st (ptrN k (GoType.named n)) nb = (some (SchemaOrRef.ref n), st) := by
  induction k with
  | zero => intro nb h; simp [ptrN, synthType, h]
  | succ k ih =>
    intro nb h
    rw [show ptrN (k + 1) (GoType.named n) = GoType.ptr (ptrN k (GoType.named n)) from rfl]
    rw [show synthType env fuel st (GoType.ptr (ptrN k (GoType.named n))) nb
        = synthType env fuel st (ptrN k (GoType.named n)) true by simp [synthType]]
    exact ih true h

theorem parseEnumPieces_no_outOfFuel (base : GoType) (fname : String) :
    ∀ ps, GenError.outOfFuel ∉ (parseEnumPieces base fname ps).2 := by
  intro ps
  induction ps with
  | nil => simp [parseEnumPieces]
  | cons p ps ih =>
    rw [parseEnumPieces]
    cases hst : stringToType base p <;> simp [hst, ih]

theorem applyFieldTags_no_outOfFuel (f : GoField) (sor : SchemaOrRef) :
    GenError.outOfFuel ∉ (applyFieldTags f sor).2 := by
  unfold applyFieldTags
  split
  · simp
  · dsimp only
    simp only [List.mem_append, not_or]
    refine ⟨⟨?_, ?_⟩, ?_⟩
    · split
      · simp
      · split
        · simp
        · split
          · simp
          · split <;> simp
    · split
      · simp
      · split
        · simp
        · split <;> simp [parseEnumPieces_no_outOfFuel]
    · split
      · simp
      · split
        · simp
        · split <;> simp

/-- Synthesizing any type over the single self-referential declaration
environment while its name is registered never expands the environment
again: the registry and cycle guard are unchanged and the sink gains no
out-of-fuel sentinel. -/
theorem synthType_registered_single (n : String) (fs : List GoField) (fuel : Nat) (t : GoType) :
    ∀ (st : GenState) (nb : Bool), n ∈ st.registered →
      (synthType [(n, fs)] fuel st t nb).2.registered = st.registered
      ∧ (synthType [(n, fs)] fuel st t nb).2.defs = st.defs
      ∧ ∃ es, (synthType [(n, fs)] fuel st t nb).2.errors = st.errors ++ es
          ∧ GenError.outOfFuel ∉ es := by
  induction t with
  | prim k =>
    intro st nb h
    exact ⟨by simp [synthType], by simp [synthType], [], by simp [synthType], by simp⟩
  | custom k p =>
    intro st nb h
    exact ⟨by simp [synthType], by simp [synthType], [], by simp [synthType], by simp⟩
  | ptr t ih =>
    intro st nb h
    rw [show synthType [(n, fs)] fuel st (GoType.ptr t) nb
        = synthType [(n, fs)] fuel st t true by simp [synthType]]
    exact ih st true h
  | slice t ih =>
    intro st nb h
    have hout : (synthType [(n, fs)] fuel st (GoType.slice t) nb).2
        = (synthType [(n, fs)] fuel st t false).2 := by
      simp [synthType]
    rw [hout]
    exact ih st false h
  | array m t ih =>
    intro st nb h
    have hout : (synthType [(n, fs)] fuel st (GoType.array m t) nb).2
        = (synthType [(n, fs)] fuel st t false).2 := by
      simp [synthType]
    rw [hout]
    exact ih st false h
  | mapT kT vT ihk ihv =>
    intro st nb h
    by_cases hk : keyIsString kT = true
    · have hout : (synthType [(n, fs)] fuel st (GoType.mapT kT vT) nb).2
          = (synthType [(n, fs)] fuel st vT false).2 := by
        simp [synthType, hk]
      rw [hout]
      exact ihv st false h
    · have hk2 : keyIsString kT = false := by simpa using hk
      have hout : (synthType [(n, fs)] fuel st (GoType.mapT kT vT) nb).2
          = st.addErr GenError.unsupportedMapKey := by
        simp [synthType, hk2]
      rw [hout]
      exact ⟨rfl, rfl, [GenError.unsupportedMapKey], rfl, by simp⟩
  | named m =>
    intro st nb h
    by_cases hm : m ∈ st.registered
    · have hout : synthType [(n, fs)] fuel st (GoType.named m) nb
          = (some (SchemaOrRef.ref m), st) := by
        simp [synthType, hm]
      rw [hout]
      exact ⟨rfl, rfl, [], by simp, by simp⟩
    · have hne : ¬ n = m := fun hc => hm (hc ▸ h)
      have hlook : alookup m [(n, fs)] = none := by
        simp [alookup, List.find?, hne]
      have hout : synthType [(n, fs)] fuel st (GoType.named m) nb
          = (none, st.addErr (GenError.unsupportedType m)) := by
        simp [synthType, hm, hlook]
      rw [hout]
      exact ⟨rfl, rfl, [GenError.unsupportedType m], rfl, by simp⟩

/-- The field pass over the self-referential declaration with its name
registered: cycle guard and registry unchanged, no out-of-fuel error. -/
theorem synthFields_registered_single (n : String) (fs : List GoField) (fuel : Nat) :
    ∀ (l : List GoField) (st : GenState) (props : List (String × SchemaOrRef))
      (reqs : List String), n ∈ st.registered →
      (synthFields [(n, fs)] fuel st n l props reqs).2.2.registered = st.registered
      ∧ (synthFields [(n, fs)] fuel st n l props reqs).2.2.defs = st.defs
      ∧ ∃ es, (synthFields [(n, fs)] fuel st n l props reqs).2.2.errors = st.errors ++ es
          ∧ GenError.outOfFuel ∉ es := by
  intro l
  induction l with
  | nil =>
    intro st props reqs h
    exact ⟨by simp [synthFields], by simp [synthFields], [], by simp [synthFields], by simp⟩
  | cons f rest ih =>
    intro st props reqs h
    rw [synthFields.eq_def]
    dsimp only
    split
    · exact ih st props reqs h
    · split
      · split
        · split
          · exact ih st props reqs h
          · rename_i m hder hne
            split
            · exact ih st props reqs h
            · rename_i mfs hlook
              exfalso
              have : ¬ n = m := fun hc => hne (hc.symm)
              simp [alookup, List.find?, this] at hlook
        · exact ih st props reqs h
      · split
        · exact ih st props reqs h
        · rename_i w hw
          split
          · rename_i st1 hsyn
            have hT := synthType_registered_single n fs fuel f.typ st false h
            rw [hsyn] at hT
            obtain ⟨hreg, hdefs, es1, herr, hnf⟩ := hT
            have h1 : n ∈ st1.registered := by rw [hreg]; exact h
            obtain ⟨hreg2, hdefs2, es2, herr2, hnf2⟩ := ih st1 props reqs h1
            refine ⟨by rw [hreg2, hreg], by rw [hdefs2, hdefs], es1 ++ es2, ?_, ?_⟩
            · rw [herr2, herr, List.append_assoc]
            · simp [hnf, hnf2]
          · rename_i sor st1 hsyn
            have hT := synthType_registered_single n fs fuel f.typ st false h
            rw [hsyn] at hT
            obtain ⟨hreg, hdefs, es1, herr, hnf⟩ := hT
            have h1 : n ∈ (st1.addErrs (applyFieldTags f sor).2).registered := by
              show n ∈ st1.registered
              rw [hreg]; exact h
            obtain ⟨hreg2, hdefs2, es2, herr2, hnf2⟩ :=
              ih (st1.addErrs (applyFieldTags f sor).2) _ _ h1
            refine ⟨?_, ?_, es1 ++ (applyFieldTags f sor).2 ++ es2, ?_, ?_⟩
            · rw [hreg2]; show st1.registered = _; rw [hreg]
            · rw [hdefs2]; show st1.defs = _; rw [hdefs]
            · rw [herr2]
              show st1.errors ++ (applyFieldTags f sor).2 ++ es2 = _
              rw [herr]
              simp [List.append_assoc]
            · simp [hnf, hnf2, applyFieldTags_no_outOfFuel f sor]

/-- With the self name registered and no earlier field claiming the wire
name, a pointer-to-self field synthesizes into a Reference to the
registered name at its property slot. -/
theorem synthFields_self_site (n : String) (fs : List GoField) (fuel : Nat) :
    ∀ (l1 : List GoField) (l2 : List GoField) (f : GoField) (st : GenState)
      (props : List (String × SchemaOrRef)) (reqs : List String) (k : Nat) (w : String),
      n ∈ st.registered →
      f.anonymous = false → f.exported = true →
      f.typ = ptrN (k + 1) (GoType.named n) → resolveWireName f = some w →
      keyMem w props = false →
      (∀ g ∈ l1, effectiveWire g ≠ some w) →
      alookup w (synthFields [(n, fs)] fuel st n (l1 ++ f :: l2) props reqs).1
        = some (SchemaOrRef.ref n) := by
  intro l1
  induction l1 with
  | nil =>
    intro l2 f st props reqs k w h han hex htyp hw hkm _
    rw [List.nil_append, synthFields.eq_def]
    dsimp only
    rw [if_neg (by simp [hex]), if_neg (by simp [han]), hw]
    have hsyn : synthType [(n, fs)] fuel st f.typ false = (some (SchemaOrRef.ref n), st) := by
      rw [htyp]
      exact synthType_ptrN_named_registered [(n, fs)] fuel st n (k + 1) false h
    rw [hsyn]
    dsimp only
    have htag : applyFieldTags f (SchemaOrRef.ref n) = (SchemaOrRef.ref n, []) := by
      simp [applyFieldTags]
    rw [htag]
    dsimp only
    have hpadd : propsAdd props w (SchemaOrRef.ref n) = props ++ [(w, SchemaOrRef.ref n)] := by
      simp [propsAdd, hkm]
    rw [hpadd]
    obtain ⟨ext, hext⟩ := synthFields_props_extend fuel l2 [(n, fs)]
      (st.addErrs []) n (props ++ [(w, SchemaOrRef.ref n)])
      (if f.required = true ∧ ¬keyMem w props = true then reqs ++ [w] else reqs)
    rw [hext]
    have hk1 : keyMem w (props ++ [(w, SchemaOrRef.ref n)]) = true := by
      rw [keyMem_append]
      simp [keyMem]
    rw [alookup_append_left w _ ext hk1, alookup_append_right w props _ hkm]
    simp [alookup, List.find?]
  | cons g l1 ih =>
    intro l2 f st props reqs k w h han hex htyp hw hkm hfirst
    have hg : effectiveWire g ≠ some w := hfirst g (List.mem_cons_self g l1)
    have hfirst2 : ∀ g2 ∈ l1, effectiveWire g2 ≠ some w :=
      fun g2 hm => hfirst g2 (List.mem_cons_of_mem g hm)
    rw [List.cons_append, synthFields.eq_def]
    dsimp only
    split
    · exact ih l2 f st props reqs k w h han hex htyp hw hkm hfirst2
    · split
      · split
        · split
          · exact ih l2 f st props reqs k w h han hex htyp hw hkm hfirst2
          · rename_i m hder hne
            split
            · exact ih l2 f st props reqs k w h han hex htyp hw hkm hfirst2
            · rename_i mfs hlook
              exfalso
              have : ¬ n = m := fun hc => hne hc.symm
              simp [alookup, List.find?, this] at hlook
        · exact ih l2 f st props reqs k w h han hex htyp hw hkm hfirst2
      · split
        · exact ih l2 f st props reqs k w h han hex htyp hw hkm hfirst2
        · rename_i hexp hanon hscrut w2 hw2
          have hwne : w2 ≠ w := by
            intro hc
            apply hg
            unfold effectiveWire
            have hgex : g.exported = true := not_not.mp hexp
            rw [if_neg (by simp [hgex]), if_neg hanon, hw2, hc]
          split
          · rename_i st1 hsyn
            have hT := synthType_registered_single n fs fuel g.typ st false h
            rw [hsyn] at hT
            have h1 : n ∈ st1.registered := by rw [hT.1]; exact h
            exact ih l2 f st1 props reqs k w h1 han hex htyp hw hkm hfirst2
          · rename_i sor st1 hsyn
            have hT := synthType_registered_single n fs fuel g.typ st false h
            rw [hsyn] at hT
            have h1 : n ∈ (st1.addErrs (applyFieldTags g sor).2).registered := by
              show n ∈ st1.registered
              rw [hT.1]; exact h
            have hkm2 : keyMem w (propsAdd props w2 (applyFieldTags g sor).1) = false := by
              rw [keyMem_propsAdd_ne w w2 _ props hwne]
              exact hkm
            exact ih l2 f (st1.addErrs (applyFieldTags g sor).2)
              (propsAdd props w2 (applyFieldTags g sor).1) _ k w h1 han hex htyp hw hkm2 hfirst2

/-- C1: synthesizing a self-referential struct (one holding a pointer to
its own type, directly or through embedded fields) over its single
declaration terminates with one unit of expansion budget, returns a
Reference, registers exactly one schema for the type, records no
out-of-fuel sentinel, and every repeat encounter of the type in the
resulting session — any pointer depth, any remaining budget — returns a
Reference without touching the state; moreover each pointer-to-self field
not shadowed by an earlier wire name holds a Reference (never a second
inline copy) in the registered schema.  An embedded self reference is
skipped by the flattening pass and so contributes no inline copy either. -/
theorem selfref_synthesis (n : String) (fs : List GoField) (fuel : Nat)
    (_hself : ∃ f, f ∈ fs ∧ derefAll f.typ = GoType.named n) :
    (synthRoot n fs (fuel + 1)).1 = some (SchemaOrRef.ref n)
    ∧ defsCount n (synthRoot n fs (fuel + 1)).2.defs = 1
    ∧ GenError.outOfFuel ∉ (synthRoot n fs (fuel + 1)).2.errors
    ∧ (∀ (fuel2 k : Nat) (nb : Bool),
        synthType [(n, fs)] fuel2 (synthRoot n fs (fuel + 1)).2 (ptrN k (GoType.named n)) nb
          = (some (SchemaOrRef.ref n), (synthRoot n fs (fuel + 1)).2))
    ∧ (∀ (l1 l2 : List GoField) (f : GoField) (k : Nat) (w : String),
        fs = l1 ++ f :: l2 → f.anonymous = false → f.exported = true →
        f.typ = ptrN (k + 1) (GoType.named n) → resolveWireName f = some w →
        (∀ g ∈ l1, effectiveWire g ≠ some w) →
        ∃ node, alookup n (synthRoot n fs (fuel + 1)).2.defs = some node
          ∧ alookup w (propsOf node) = some (SchemaOrRef.ref n)) := by
  have hreg1 : n ∈ (⟨[n], [], []⟩ : GenState).registered := by simp
  have hstep : synthRoot n fs (fuel + 1)
      = (some (SchemaOrRef.ref n),
          { registered := (synthFields [(n, fs)] fuel ⟨[n], [], []⟩ n fs [] []).2.2.registered,
            defs := (synthFields [(n, fs)] fuel ⟨[n], [], []⟩ n fs [] []).2.2.defs
              ++ [(n, SchemaOrRef.obj "object" "" false
                    (synthFields [(n, fs)] fuel ⟨[n], [], []⟩ n fs [] []).1
                    (synthFields [(n, fs)] fuel ⟨[n], [], []⟩ n fs [] []).2.1
                    none none [] none none)],
            errors := (synthFields [(n, fs)] fuel ⟨[n], [], []⟩ n fs [] []).2.2.errors }) := by
    rw [synthRoot, synthType.eq_def]
    simp [GenState.empty, alookup, List.find?]
  obtain ⟨hregP, hdefsP, es, herrP, hnfP⟩ :=
    synthFields_registered_single n fs fuel fs ⟨[n], [], []⟩ [] [] hreg1
  refine ⟨by rw [hstep], ?_, ?_, ?_, ?_⟩
  · rw [hstep]
    show defsCount n ((synthFields [(n, fs)] fuel ⟨[n], [], []⟩ n fs [] []).2.2.defs ++ _) = 1
    rw [hdefsP]
    simp [defsCount]
  · rw [hstep]
    show GenError.outOfFuel ∉ (synthFields [(n, fs)] fuel ⟨[n], [], []⟩ n fs [] []).2.2.errors
    rw [herrP]
    simp [hnfP]
  · intro fuel2 k nb
    apply synthType_ptrN_named_registered
    rw [hstep]
    show n ∈ (synthFields [(n, fs)] fuel ⟨[n], [], []⟩ n fs [] []).2.2.registered
    rw [hregP]
    simp
  · intro l1 l2 f k w hsplit han hex htyp hw hfirst
    refine ⟨SchemaOrRef.obj "object" "" false
        (synthFields [(n, fs)] fuel ⟨[n], [], []⟩ n fs [] []).1
        (synthFields [(n, fs)] fuel ⟨[n], [], []⟩ n fs [] []).2.1
        none none [] none none, ?_, ?_⟩
    · rw [hstep]
      show alookup n ((synthFields [(n, fs)] fuel ⟨[n], [], []⟩ n fs [] []).2.2.defs ++ _) = _
      rw [hdefsP]
      simp [alookup, List.find?]
    · show alookup w (propsOf _) = _
      rw [show propsOf (SchemaOrRef.obj "object" "" false
          (synthFields [(n, fs)] fuel ⟨[n], [], []⟩ n fs [] []).1
          (synthFields [(n, fs)] fuel ⟨[n], [], []⟩ n fs [] []).2.1
          none none [] none none)
        = (synthFields [(n, fs)] fuel ⟨[n], [], []⟩ n fs [] []).1 from rfl]
      nth_rewrite 2 [hsplit]
      exact synthFields_self_site n fs fuel l1 l2 f ⟨[n], [], []⟩ [] [] k w hreg1
        han hex htyp hw (by simp [keyMem]) hfirst

/-- Witness for C1 at a struct X embedding *X (skipped), holding a
required string field A and a pointer-to-self field F: the synthesis
returns a Reference, registers X once, and F's property is a Reference
to X. -/
theorem selfref_synthesis_witness :
    (synthRoot "X"
        [⟨"X", GoType.ptr (GoType.named "X"), true, true, none, false, none, none, none⟩,
         ⟨"A", GoType.prim PrimKind.str, false, true, none, true, none, none, none⟩,
         ⟨"F", GoType.ptr (GoType.named "X"), false, true, none, false, none, none, none⟩] 1).1
      = some (SchemaOrRef.ref "X")
    ∧ defsCount "X" (synthRoot "X"
        [⟨"X", GoType.ptr (GoType.named "X"), true, true, none, false, none, none, none⟩,
         ⟨"A", GoType.prim PrimKind.str, false, true, none, true, none, none, none⟩,
         ⟨"F", GoType.ptr (GoType.named "X"), false, true, none, false, none, none, none⟩] 1).2.defs = 1
    ∧ ∃ node, alookup "X" (synthRoot "X"
        [⟨"X", GoType.ptr (GoType.named "X"), true, true, none, false, none, none, none⟩,
         ⟨"A", GoType.prim PrimKind.str, false, true, none, true, none, none, none⟩,
         ⟨"F", GoType.ptr (GoType.named "X"), false, true, none, false, none, none, none⟩] 1).2.defs
          = some node
        ∧ alookup "F" (propsOf node) = some (SchemaOrRef.ref "X") := by
  have h := selfref_synthesis "X"
    [⟨"X", GoType.ptr (GoType.named "X"), true, true, none, false, none, none, none⟩,
     ⟨"A", GoType.prim PrimKind.str, false, true, none, true, none, none, none⟩,
     ⟨"F", GoType.ptr (GoType.named "X"), false, true, none, false, none, none, none⟩] 0
    ⟨⟨"X", GoType.ptr (GoType.named "X"), true, true, none, false, none, none, none⟩,
     List.mem_cons_self _ _, rfl⟩
  refine ⟨h.1, h.2.1, ?_⟩
  refine h.2.2.2.2
    [⟨"X", GoType.ptr (GoType.named "X"), true, true, none, false, none, none, none⟩,
     ⟨"A", GoType.prim PrimKind.str, false, true, none, true, none, none, none⟩] []
    ⟨"F", GoType.ptr (GoType.named "X"), false, true, none, false, none, none, none⟩ 0 "F"
    rfl rfl rfl rfl rfl ?_
  intro g hg
  simp only [List.mem_cons, List.mem_singleton] at hg
  rcases hg with rfl | rfl | hg
  · decide
  · decide
  · simp at hg

end Fizz
